import Mathlib

/-! Shallow embedding of `benchmark::cycleclock::Now()` from
`src/cycleclock.h` of the google-benchmark snapshot, together with a
model of the preprocessor branch selection that chooses, at build time,
which architecture-specific body of `Now()` is compiled.

Machine integers are modelled as `Nat` bit patterns; the conversion of a
64-bit pattern into the `int64_t` value that `Now()` returns is the
explicit twos-complement reinterpretation `toInt64`.
-/

namespace CycleClock

/-- Reinterpretation of a natural-number bit pattern as a 64-bit signed
integer (twos complement), as happens when the C code places an
unsigned 64-bit quantity into the `int64_t` return value of `Now()`. -/
def toInt64 (n : Nat) : Int :=
  if n % 2 ^ 64 < 2 ^ 63 then ((n % 2 ^ 64 : Nat) : Int)
  else ((n % 2 ^ 64 : Nat) : Int) - 2 ^ 64

/-- Raw hardware/kernel readings available to one call of `Now()`.  Each
architecture branch consumes only the fields its instructions read.  For
the PowerPC branch the three `ppcTb` fields are the value of the 64-bit
time-base counter at the instant of each of the three register reads
(`mftbu`, `mftb`, `mftbu`, in program order). -/
structure HwState where
  machTime : Nat
  tsc : Nat
  ppcTb0 : Nat
  ppcTb1 : Nat
  ppcTb2 : Nat
  sparcTick : Nat
  ia64Itc : Nat
  pmuseren : Nat
  pmcntenset : Nat
  pmccntr : Nat
  tvSec : Nat
  tvUsec : Nat
  deriving DecidableEq

/-- The mutually exclusive compile-time branches of `Now()` in
`src/cycleclock.h`, in source order. -/
inductive Branch where
  | macosx
  | i386
  | x86_64
  | powerpc
  | sparc
  | ia64
  | msvcAsm
  | msvcIntrin
  | armv6
  | armGeneric
  | mips
  deriving DecidableEq

/-- Embedding of the `gettimeofday` fallback body, shared verbatim by the
ARM fallback path and the MIPS branch:
`return static_cast<int64_t>(tv.tv_sec) * 1000000 + tv.tv_usec;`. -/
def gettimeofdayNow (sec usec : Nat) : Int :=
  toInt64 (sec * 1000000 + usec)

/-- Embedding of the x86-64 branch body: `low` and `high` are the
`uint64` variables written by `rdtsc` (`"=a" (low), "=d" (high)`), and
the body returns `(high << 32) | low` converted to `int64_t`. -/
def rdtsc64Combine (low high : Nat) : Int :=
  toInt64 ((((high % 2 ^ 64) <<< 32) % 2 ^ 64) ||| (low % 2 ^ 64))

/-- Embedding of the PowerPC branch body on the three 32-bit register
reads `tbu0`, `tbl`, `tbu1`: the mask statement
`tbl &= -static_cast<int64>(tbu0 == tbu1);` keeps `tbl` when the two
upper-half reads agree (`-1` is the all-ones pattern `2^64 - 1`) and
zeroes it otherwise, and the result is `(tbu1 << 32) | tbl`. -/
def ppcCombine (tbu0 tbl tbu1 : Nat) : Int :=
  let mask : Nat := if tbu0 = tbu1 then 2 ^ 64 - 1 else 0
  let tbl2 : Nat := tbl &&& mask
  toInt64 (((tbu1 <<< 32) % 2 ^ 64) ||| tbl2)

/-- The runtime guard of the ARM performance-monitor path: the condition
`(pmuseren & 1)` on the 32-bit permission register followed by
`(pmcntenset & 0x80000000ul)` on the 32-bit enable register. -/
def armCanRead (hw : HwState) : Bool :=
  ((hw.pmuseren % 2 ^ 32) &&& 1 != 0) && ((hw.pmcntenset % 2 ^ 32) &&& 0x80000000 != 0)

/-- The runtime semantics of `Now()` for each compiled branch, as a
function of the raw hardware/kernel readings of that call.  Register
reads of 32-bit registers are reduced `% 2 ^ 32`; `mftbu` reads the
upper half (`/ 2 ^ 32`) of the time-base counter, `mftb` its lower
half. -/
def Now (b : Branch) (hw : HwState) : Int :=
  match b with
  | .macosx => toInt64 hw.machTime
  | .i386 => toInt64 hw.tsc
  | .x86_64 => rdtsc64Combine (hw.tsc % 2 ^ 32) (hw.tsc / 2 ^ 32 % 2 ^ 32)
  | .powerpc =>
      ppcCombine (hw.ppcTb0 / 2 ^ 32 % 2 ^ 32) (hw.ppcTb1 % 2 ^ 32) (hw.ppcTb2 / 2 ^ 32 % 2 ^ 32)
  | .sparc => toInt64 hw.sparcTick
  | .ia64 => toInt64 hw.ia64Itc
  | .msvcAsm => toInt64 hw.tsc
  | .msvcIntrin => toInt64 hw.tsc
  | .armv6 =>
      if (hw.pmuseren % 2 ^ 32) &&& 1 != 0 then
        if (hw.pmcntenset % 2 ^ 32) &&& 0x80000000 != 0 then
          ((hw.pmccntr % 2 ^ 32 : Nat) : Int) * 64
        else gettimeofdayNow hw.tvSec hw.tvUsec
      else gettimeofdayNow hw.tvSec hw.tvUsec
  | .armGeneric => gettimeofdayNow hw.tvSec hw.tvUsec
  | .mips => gettimeofdayNow hw.tvSec hw.tvUsec

/-- The preprocessor feature switches consulted by the `#if`/`#elif`
chain of `src/cycleclock.h`. -/
structure Config where
  os_macosx : Bool
  i386 : Bool
  x86_64 : Bool
  amd64 : Bool
  powerpc : Bool
  ppc : Bool
  sparc : Bool
  ia64 : Bool
  compiler_msvc : Bool
  m_ix86 : Bool
  armv3 : Bool
  armv6 : Bool
  mips : Bool
  deriving DecidableEq

/-- The `#if`/`#elif` chain of `src/cycleclock.h`, first match wins;
`none` means the chain falls through to the `#error` directive. -/
def selectBranch (c : Config) : Option Branch :=
  if c.os_macosx then some .macosx
  else if c.i386 then some .i386
  else if c.x86_64 || c.amd64 then some .x86_64
  else if c.powerpc || c.ppc then some .powerpc
  else if c.sparc then some .sparc
  else if c.ia64 then some .ia64
  else if c.compiler_msvc && c.m_ix86 then some .msvcAsm
  else if c.compiler_msvc then some .msvcIntrin
  else if c.armv3 then (if c.armv6 then some .armv6 else some .armGeneric)
  else if c.mips then some .mips
  else none

/-- The message of the `#error` directive at the end of the chain. -/
def cycleTimerError : String := "You need to define CycleTimer for your OS and CPU"

/-- Building `Now()` for a configuration: either exactly one branch body
is compiled in, or compilation fails with the `#error` message. -/
def compileNow (c : Config) : Except String Branch :=
  match selectBranch c with
  | some b => .ok b
  | none => .error cycleTimerError

/-- A configuration defines at least one of the feature tests that can
lead the `#if`/`#elif` chain to a branch body. -/
def matchesKnown (c : Config) : Bool :=
  c.os_macosx || c.i386 || c.x86_64 || c.amd64 || c.powerpc || c.ppc ||
    c.sparc || c.ia64 || c.compiler_msvc || c.armv3 || c.mips

/-- The microsecond value of one `gettimeofday` reading. -/
def tvVal (hw : HwState) : Nat := hw.tvSec * 1000000 + hw.tvUsec

/-- Hardware sanity of one call state for a branch: counters fit their
register widths, a `timeval` has `tv_usec < 10^6`, and the three PowerPC
time-base snapshots are taken from a non-decreasing counter in program
order. -/
def WellFormed (b : Branch) (hw : HwState) : Prop :=
  match b with
  | .macosx => hw.machTime < 2 ^ 64
  | .i386 | .x86_64 | .msvcAsm | .msvcIntrin => hw.tsc < 2 ^ 64
  | .powerpc => hw.ppcTb0 ≤ hw.ppcTb1 ∧ hw.ppcTb1 ≤ hw.ppcTb2 ∧ hw.ppcTb2 < 2 ^ 64
  | .sparc => hw.sparcTick < 2 ^ 64
  | .ia64 => hw.ia64Itc < 2 ^ 64
  | .armv6 => hw.pmccntr < 2 ^ 32 ∧ hw.tvUsec < 1000000
  | .armGeneric | .mips => hw.tvUsec < 1000000

/-- The raw reading of the branch stays below `2 ^ 63` counter units
(the proviso of the non-negativity property of the specification). -/
def Bound63 (b : Branch) (hw : HwState) : Prop :=
  match b with
  | .macosx => hw.machTime < 2 ^ 63
  | .i386 | .x86_64 | .msvcAsm | .msvcIntrin => hw.tsc < 2 ^ 63
  | .powerpc => hw.ppcTb2 < 2 ^ 63
  | .sparc => hw.sparcTick < 2 ^ 63
  | .ia64 => hw.ia64Itc < 2 ^ 63
  | .armv6 => tvVal hw < 2 ^ 63
  | .armGeneric | .mips => tvVal hw < 2 ^ 63

/-- The raw counter/clock reading of the branch is non-decreasing from
one call to the next: the counter at the end of the first call is at
most the counter at the start of the second, and on the ARM branch the
guard registers are unchanged between the calls. -/
def rawLe (b : Branch) (h1 h2 : HwState) : Prop :=
  match b with
  | .macosx => h1.machTime ≤ h2.machTime
  | .i386 | .x86_64 | .msvcAsm | .msvcIntrin => h1.tsc ≤ h2.tsc
  | .powerpc => h1.ppcTb2 ≤ h2.ppcTb0
  | .sparc => h1.sparcTick ≤ h2.sparcTick
  | .ia64 => h1.ia64Itc ≤ h2.ia64Itc
  | .armv6 => h1.pmuseren = h2.pmuseren ∧ h1.pmcntenset = h2.pmcntenset ∧
      h1.pmccntr ≤ h2.pmccntr ∧ tvVal h1 ≤ tvVal h2
  | .armGeneric | .mips => tvVal h1 ≤ tvVal h2

/-- A copy of a call state with only the cycle-counter register
replaced, used to speak about wrap-around of the 32-bit ARM counter. -/
def setPmccntr (hw : HwState) (n : Nat) : HwState :=
  HwState.mk hw.machTime hw.tsc hw.ppcTb0 hw.ppcTb1 hw.ppcTb2 hw.sparcTick
    hw.ia64Itc hw.pmuseren hw.pmcntenset n hw.tvSec hw.tvUsec

/-- A call state with every reading zero. -/
def hw0 : HwState := HwState.mk 0 0 0 0 0 0 0 0 0 0 0 0

/-- A mach-branch call state one tick before the sign bit of the 64-bit
reinterpretation. -/
def hwOverflowA : HwState := HwState.mk (2 ^ 63 - 1) 0 0 0 0 0 0 0 0 0 0 0

/-- A mach-branch call state exactly at the sign bit of the 64-bit
reinterpretation. -/
def hwOverflowB : HwState := HwState.mk (2 ^ 63) 0 0 0 0 0 0 0 0 0 0 0

/-- A small mach-branch call state. -/
def hwW1 : HwState := HwState.mk 5 0 0 0 0 0 0 0 0 0 0 0

/-- A later small mach-branch call state. -/
def hwW2 : HwState := HwState.mk 9 0 0 0 0 0 0 0 0 0 0 0

/-- An ARM call state whose permission and enable guards both pass and
whose cycle-counter register reads 7. -/
def hwArmOn : HwState := HwState.mk 0 0 0 0 0 0 0 1 (2 ^ 31) 7 0 0

/-- An ARM call state whose user-mode permission guard fails. -/
def hwArmOff : HwState := HwState.mk 0 0 0 0 0 0 0 0 (2 ^ 31) 7 3 250

/-- A fallback-branch call state reading 3 s 250 us. -/
def hwTvSmall : HwState := HwState.mk 0 0 0 0 0 0 0 0 0 0 3 250

/-- A fallback-branch call state whose seconds value makes
`tv_sec * 1000000` exceed the 64-bit signed range. -/
def hwTvHuge : HwState := HwState.mk 0 0 0 0 0 0 0 0 0 0 (10 ^ 13) 0

/-- The all-false configuration: no feature switch defined. -/
def cfgNone : Config :=
  Config.mk false false false false false false false false false false false false false

instance (b : Branch) (hw : HwState) : Decidable (WellFormed b hw) :=
  match b with
  | .macosx => inferInstanceAs (Decidable (hw.machTime < 2 ^ 64))
  | .i386 => inferInstanceAs (Decidable (hw.tsc < 2 ^ 64))
  | .x86_64 => inferInstanceAs (Decidable (hw.tsc < 2 ^ 64))
  | .msvcAsm => inferInstanceAs (Decidable (hw.tsc < 2 ^ 64))
  | .msvcIntrin => inferInstanceAs (Decidable (hw.tsc < 2 ^ 64))
  | .powerpc => inferInstanceAs
      (Decidable (hw.ppcTb0 ≤ hw.ppcTb1 ∧ hw.ppcTb1 ≤ hw.ppcTb2 ∧ hw.ppcTb2 < 2 ^ 64))
  | .sparc => inferInstanceAs (Decidable (hw.sparcTick < 2 ^ 64))
  | .ia64 => inferInstanceAs (Decidable (hw.ia64Itc < 2 ^ 64))
  | .armv6 => inferInstanceAs (Decidable (hw.pmccntr < 2 ^ 32 ∧ hw.tvUsec < 1000000))
  | .armGeneric => inferInstanceAs (Decidable (hw.tvUsec < 1000000))
  | .mips => inferInstanceAs (Decidable (hw.tvUsec < 1000000))

instance (b : Branch) (hw : HwState) : Decidable (Bound63 b hw) :=
  match b with
  | .macosx => inferInstanceAs (Decidable (hw.machTime < 2 ^ 63))
  | .i386 => inferInstanceAs (Decidable (hw.tsc < 2 ^ 63))
  | .x86_64 => inferInstanceAs (Decidable (hw.tsc < 2 ^ 63))
  | .msvcAsm => inferInstanceAs (Decidable (hw.tsc < 2 ^ 63))
  | .msvcIntrin => inferInstanceAs (Decidable (hw.tsc < 2 ^ 63))
  | .powerpc => inferInstanceAs (Decidable (hw.ppcTb2 < 2 ^ 63))
  | .sparc => inferInstanceAs (Decidable (hw.sparcTick < 2 ^ 63))
  | .ia64 => inferInstanceAs (Decidable (hw.ia64Itc < 2 ^ 63))
  | .armv6 => inferInstanceAs (Decidable (tvVal hw < 2 ^ 63))
  | .armGeneric => inferInstanceAs (Decidable (tvVal hw < 2 ^ 63))
  | .mips => inferInstanceAs (Decidable (tvVal hw < 2 ^ 63))

instance (b : Branch) (h1 h2 : HwState) : Decidable (rawLe b h1 h2) :=
  match b with
  | .macosx => inferInstanceAs (Decidable (h1.machTime ≤ h2.machTime))
  | .i386 => inferInstanceAs (Decidable (h1.tsc ≤ h2.tsc))
  | .x86_64 => inferInstanceAs (Decidable (h1.tsc ≤ h2.tsc))
  | .msvcAsm => inferInstanceAs (Decidable (h1.tsc ≤ h2.tsc))
  | .msvcIntrin => inferInstanceAs (Decidable (h1.tsc ≤ h2.tsc))
  | .powerpc => inferInstanceAs (Decidable (h1.ppcTb2 ≤ h2.ppcTb0))
  | .sparc => inferInstanceAs (Decidable (h1.sparcTick ≤ h2.sparcTick))
  | .ia64 => inferInstanceAs (Decidable (h1.ia64Itc ≤ h2.ia64Itc))
  | .armv6 => inferInstanceAs
      (Decidable (h1.pmuseren = h2.pmuseren ∧ h1.pmcntenset = h2.pmcntenset ∧
        h1.pmccntr ≤ h2.pmccntr ∧ tvVal h1 ≤ tvVal h2))
  | .armGeneric => inferInstanceAs (Decidable (tvVal h1 ≤ tvVal h2))
  | .mips => inferInstanceAs (Decidable (tvVal h1 ≤ tvVal h2))

lemma toInt64_of_lt {n : Nat} (h : n < 2 ^ 63) : toInt64 n = (n : Int) := by
  unfold toInt64
  have h64 : n % 2 ^ 64 = n := by omega
  rw [h64, if_pos h]

lemma toInt64_range (n : Nat) : -(2 ^ 63) ≤ toInt64 n ∧ toInt64 n < 2 ^ 63 := by
  unfold toInt64
  have h1 : n % 2 ^ 64 < 2 ^ 64 := by omega
  split <;> omega

lemma lor_low (a b : Nat) (hb : b < 2 ^ 32) : (a * 2 ^ 32) ||| b = a * 2 ^ 32 + b := by
  rw [Nat.mul_comm a]
  exact (Nat.mul_add_lt_is_or hb a).symm

lemma rdtsc64Combine_eq (low high : Nat) (hl : low < 2 ^ 32) :
    rdtsc64Combine low high = toInt64 ((high % 2 ^ 32) * 2 ^ 32 + low) := by
  unfold rdtsc64Combine
  have h1 : (high % 2 ^ 64) <<< 32 = (high % 2 ^ 64) * 2 ^ 32 := Nat.shiftLeft_eq _ 32
  have h2 : (high % 2 ^ 64) * 2 ^ 32 % 2 ^ 64 = (high % 2 ^ 32) * 2 ^ 32 := by omega
  have h3 : low % 2 ^ 64 = low := by omega
  rw [h1, h2, h3, lor_low _ _ hl]

lemma ppcCombine_eq (tbu0 tbl tbu1 : Nat) (htbl : tbl < 2 ^ 32) :
    ppcCombine tbu0 tbl tbu1 =
      toInt64 ((tbu1 % 2 ^ 32) * 2 ^ 32 + (if tbu0 = tbu1 then tbl else 0)) := by
  have hsh : (tbu1 <<< 32) % 2 ^ 64 = (tbu1 % 2 ^ 32) * 2 ^ 32 := by
    rw [Nat.shiftLeft_eq]
    omega
  by_cases h : tbu0 = tbu1
  · have hm : tbl &&& (2 ^ 64 - 1) = tbl := by
      rw [Nat.and_pow_two_sub_one_eq_mod]
      omega
    simp only [ppcCombine, if_pos h, hm, hsh, lor_low _ _ htbl]
  · have hz : tbl &&& 0 = 0 := Nat.and_zero tbl
    simp only [ppcCombine, if_neg h, hz, hsh, lor_low _ 0 (by norm_num : (0 : Nat) < 2 ^ 32)]

lemma now_x86_64_eq {hw : HwState} (h : hw.tsc < 2 ^ 64) : Now .x86_64 hw = toInt64 hw.tsc := by
  simp only [Now]
  rw [rdtsc64Combine_eq _ _ (by omega)]
  congr 1
  omega

lemma now_armv6_eq_true {hw : HwState} (h : armCanRead hw = true) :
    Now .armv6 hw = ((hw.pmccntr % 2 ^ 32 : Nat) : Int) * 64 := by
  unfold armCanRead at h
  rw [Bool.and_eq_true] at h
  simp only [Now, h.1, h.2, if_true]

lemma now_armv6_eq_false {hw : HwState} (h : armCanRead hw = false) :
    Now .armv6 hw = gettimeofdayNow hw.tvSec hw.tvUsec := by
  unfold armCanRead at h
  cases h1 : ((hw.pmuseren % 2 ^ 32) &&& 1 != 0) with
  | false => simp only [Now, h1, Bool.false_eq_true, if_false]
  | true =>
      rw [h1, Bool.true_and] at h
      simp only [Now, h1, h, if_true, Bool.false_eq_true, if_false]

lemma now_ppc_bounds {hw : HwState} (h01 : hw.ppcTb0 ≤ hw.ppcTb1) (h12 : hw.ppcTb1 ≤ hw.ppcTb2)
    (h63 : hw.ppcTb2 < 2 ^ 63) :
    (hw.ppcTb0 : Int) ≤ Now .powerpc hw ∧ Now .powerpc hw ≤ (hw.ppcTb2 : Int) := by
  simp only [Now]
  rw [ppcCombine_eq _ _ _ (by omega : hw.ppcTb1 % 2 ^ 32 < 2 ^ 32),
    toInt64_of_lt (by split <;> omega)]
  by_cases h : hw.ppcTb0 / 2 ^ 32 % 2 ^ 32 = hw.ppcTb2 / 2 ^ 32 % 2 ^ 32
  · rw [if_pos h]
    constructor <;> omega
  · rw [if_neg h]
    constructor <;> omega

lemma now_mono_pair {b : Branch} {h1 h2 : HwState}
    (w1 : WellFormed b h1) (w2 : WellFormed b h2)
    (b1 : Bound63 b h1) (b2 : Bound63 b h2)
    (hle : rawLe b h1 h2) : Now b h1 ≤ Now b h2 := by
  cases b with
  | macosx =>
      simp only [Bound63] at b1 b2
      simp only [rawLe] at hle
      simp only [Now]
      rw [toInt64_of_lt b1, toInt64_of_lt b2]
      exact_mod_cast hle
  | i386 =>
      simp only [Bound63] at b1 b2
      simp only [rawLe] at hle
      simp only [Now]
      rw [toInt64_of_lt b1, toInt64_of_lt b2]
      exact_mod_cast hle
  | msvcAsm =>
      simp only [Bound63] at b1 b2
      simp only [rawLe] at hle
      simp only [Now]
      rw [toInt64_of_lt b1, toInt64_of_lt b2]
      exact_mod_cast hle
  | msvcIntrin =>
      simp only [Bound63] at b1 b2
      simp only [rawLe] at hle
      simp only [Now]
      rw [toInt64_of_lt b1, toInt64_of_lt b2]
      exact_mod_cast hle
  | sparc =>
      simp only [Bound63] at b1 b2
      simp only [rawLe] at hle
      simp only [Now]
      rw [toInt64_of_lt b1, toInt64_of_lt b2]
      exact_mod_cast hle
  | ia64 =>
      simp only [Bound63] at b1 b2
      simp only [rawLe] at hle
      simp only [Now]
      rw [toInt64_of_lt b1, toInt64_of_lt b2]
      exact_mod_cast hle
  | x86_64 =>
      simp only [WellFormed] at w1 w2
      simp only [Bound63] at b1 b2
      simp only [rawLe] at hle
      rw [now_x86_64_eq w1, now_x86_64_eq w2, toInt64_of_lt b1, toInt64_of_lt b2]
      exact_mod_cast hle
  | powerpc =>
      simp only [WellFormed] at w1 w2
      simp only [Bound63] at b1 b2
      simp only [rawLe] at hle
      have hB1 := now_ppc_bounds w1.1 w1.2.1 b1
      have hB2 := now_ppc_bounds w2.1 w2.2.1 b2
      refine le_trans hB1.2 (le_trans ?_ hB2.1)
      exact_mod_cast hle
  | armv6 =>
      simp only [WellFormed] at w1 w2
      simp only [Bound63, tvVal] at b1 b2
      simp only [rawLe, tvVal] at hle
      have hg : armCanRead h1 = armCanRead h2 := by
        unfold armCanRead
        rw [hle.1, hle.2.1]
      cases hc : armCanRead h2 with
      | true =>
          rw [now_armv6_eq_true (hg.trans hc), now_armv6_eq_true hc,
            Nat.mod_eq_of_lt w1.1, Nat.mod_eq_of_lt w2.1]
          have := hle.2.2.1
          omega
      | false =>
          rw [now_armv6_eq_false (hg.trans hc), now_armv6_eq_false hc]
          unfold gettimeofdayNow
          rw [toInt64_of_lt b1, toInt64_of_lt b2]
          have := hle.2.2.2
          omega
  | armGeneric =>
      simp only [Bound63, tvVal] at b1 b2
      simp only [rawLe, tvVal] at hle
      simp only [Now]
      unfold gettimeofdayNow
      rw [toInt64_of_lt b1, toInt64_of_lt b2]
      omega
  | mips =>
      simp only [Bound63, tvVal] at b1 b2
      simp only [rawLe, tvVal] at hle
      simp only [Now]
      unfold gettimeofdayNow
      rw [toInt64_of_lt b1, toInt64_of_lt b2]
      omega

lemma chain_mono (b : Branch) :
    ∀ (l : List HwState), (∀ h ∈ l, WellFormed b h ∧ Bound63 b h) →
      List.Chain' (rawLe b) l → List.Chain' (fun x y : Int => x ≤ y) (l.map (Now b))
  | [] => by
      intro _ _
      simp
  | [h] => by
      intro _ _
      simp
  | h1 :: h2 :: t => by
      intro hmem hch
      rw [List.chain'_cons] at hch
      have hm := chain_mono b (h2 :: t)
        (fun x hx => hmem x (List.mem_cons_of_mem _ hx)) hch.2
      simp only [List.map_cons] at hm ⊢
      rw [List.chain'_cons]
      have w1 := hmem h1 (by simp)
      have w2 := hmem h2 (by simp)
      exact ⟨now_mono_pair w1.1 w2.1 w1.2 w2.2 hch.1, hm⟩

lemma armCanRead_iff (hw : HwState) :
    armCanRead hw = true ↔ (hw.pmuseren.testBit 0 = true ∧ hw.pmcntenset.testBit 31 = true) := by
  unfold armCanRead
  rw [Bool.and_eq_true]
  have e1 : (((hw.pmuseren % 2 ^ 32) &&& 1) != 0) = true ↔ hw.pmuseren.testBit 0 = true := by
    simp only [bne_iff_ne, ne_eq, Nat.and_one_is_mod, Nat.testBit_zero, decide_eq_true_eq]
    omega
  have e2 : (((hw.pmcntenset % 2 ^ 32) &&& 0x80000000) != 0) = true ↔
      hw.pmcntenset.testBit 31 = true := by
    have e : (0x80000000 : Nat) = 2 ^ 31 := by norm_num
    rw [bne_iff_ne, e, Nat.and_two_pow, Nat.testBit_mod_two_pow]
    cases hb : hw.pmcntenset.testBit 31 <;> simp [hb]
  rw [e1, e2]

/-- Claim C1, counterexample to the claim as stated: on the mach branch,
two well-formed calls whose raw kernel tick counter is non-decreasing
(`2^63 - 1` then `2^63`) return a strictly decreasing pair of
`CycleCount` values, because the second raw reading reinterprets to a
negative 64-bit signed integer. -/
theorem c1_counterexample :
    WellFormed .macosx hwOverflowA ∧ WellFormed .macosx hwOverflowB ∧
    List.Chain' (rawLe .macosx) [hwOverflowA, hwOverflowB] ∧
    ¬ List.Chain' (fun x y : Int => x ≤ y)
        ([hwOverflowA, hwOverflowB].map (Now .macosx)) := by
  refine ⟨by decide, by decide,
    List.chain'_cons.mpr ⟨by decide, List.chain'_singleton _⟩, ?_⟩
  intro hch
  rw [List.map_cons, List.map_cons, List.map_nil, List.chain'_cons] at hch
  exact absurd hch.1 (by decide)

/-- Claim C1 (amended): for every branch and every sequence of calls on
the same thread whose raw counter/clock readings are non-decreasing
across the calls AND stay below `2^63` counter units, the sequence of
returned `CycleCount` values is non-decreasing. -/
theorem c1_now_sequence_monotone (b : Branch) (l : List HwState)
    (hmem : ∀ h ∈ l, WellFormed b h ∧ Bound63 b h)
    (hchain : List.Chain' (rawLe b) l) :
    List.Chain' (fun x y : Int => x ≤ y) (l.map (Now b)) :=
  chain_mono b l hmem hchain

/-- Witness for C1: a concrete two-call mach-branch sequence with
readings 5 then 9 returns a non-decreasing pair. -/
theorem c1_witness :
    List.Chain' (fun x y : Int => x ≤ y) ([hwW1, hwW2].map (Now .macosx)) :=
  c1_now_sequence_monotone .macosx [hwW1, hwW2] (by decide)
    (List.chain'_cons.mpr ⟨by decide, List.chain'_singleton _⟩)

/-- Claim C2: on the PowerPC branch, for every triple of 32-bit register
reads `(tbu0, tbl, tbu1)`, if `tbu0 ≠ tbu1` the result is `tbu1 << 32`
with the lower half forced to zero, and if `tbu0 = tbu1` the result is
`(tbu1 << 32) | tbl` with the lower half unchanged; in particular
`(5, 0xFFFFFFFF, 6)` yields `0x600000000` and `(5, 100, 5)` yields
`(5 << 32) | 100`. -/
theorem c2_ppc_read_read_read (tbu0 tbl tbu1 : Nat)
    (_h0 : tbu0 < 2 ^ 32) (hl : tbl < 2 ^ 32) (h1 : tbu1 < 2 ^ 32) :
    (tbu0 ≠ tbu1 → ppcCombine tbu0 tbl tbu1 = toInt64 (tbu1 <<< 32)) ∧
    (tbu0 = tbu1 → ppcCombine tbu0 tbl tbu1 = toInt64 ((tbu1 <<< 32) ||| tbl)) ∧
    ppcCombine 5 0xFFFFFFFF 6 = (0x600000000 : Int) ∧
    ppcCombine 5 100 5 = (((5 <<< 32) ||| 100 : Nat) : Int) := by
  refine ⟨?_, ?_, by decide, by decide⟩
  · intro hne
    have e : tbu1 % 2 ^ 32 * 2 ^ 32 + 0 = tbu1 <<< 32 := by
      rw [Nat.shiftLeft_eq]
      omega
    rw [ppcCombine_eq _ _ _ hl, if_neg hne, e]
  · intro heq
    have e : tbu1 % 2 ^ 32 * 2 ^ 32 + tbl = (tbu1 <<< 32) ||| tbl := by
      rw [Nat.shiftLeft_eq, lor_low _ _ hl, Nat.mod_eq_of_lt h1]
    rw [ppcCombine_eq _ _ _ hl, if_pos heq, e]

/-- Witness for C2: the rollover triple `(5, 0xFFFFFFFF, 6)` combined by
the PowerPC branch yields `0x600000000`. -/
theorem c2_witness : ppcCombine 5 0xFFFFFFFF 6 = (0x600000000 : Int) :=
  (c2_ppc_read_read_read 5 0xFFFFFFFF 6 (by decide) (by decide) (by decide)).2.2.1

/-- Claim C3: on the ARM performance-monitor branch, when bit 0 of the
`pmuseren` permission register and bit 31 of the `pmcntenset` enable
register are both set, `Now()` returns `pmccntr * 64`; when either check
fails it returns the `gettimeofday`-derived value instead of reading the
cycle counter register. -/
theorem c3_arm_guarded_read (hw : HwState) (hpm : hw.pmccntr < 2 ^ 32) :
    ((hw.pmuseren.testBit 0 = true ∧ hw.pmcntenset.testBit 31 = true) →
        Now .armv6 hw = (hw.pmccntr : Int) * 64) ∧
    (¬ (hw.pmuseren.testBit 0 = true ∧ hw.pmcntenset.testBit 31 = true) →
        Now .armv6 hw = gettimeofdayNow hw.tvSec hw.tvUsec) := by
  constructor
  · intro h
    rw [now_armv6_eq_true ((armCanRead_iff hw).mpr h), Nat.mod_eq_of_lt hpm]
  · intro h
    have hc : armCanRead hw = false := by
      cases hb : armCanRead hw with
      | false => rfl
      | true => exact absurd ((armCanRead_iff hw).mp hb) h
    rw [now_armv6_eq_false hc]

/-- Witness for C3: with both guard bits set and `pmccntr = 7` the ARM
branch returns `7 * 64`; with the permission bit clear it returns the
`gettimeofday` value for 3 s 250 us. -/
theorem c3_witness :
    Now .armv6 hwArmOn = (7 : Int) * 64 ∧
    Now .armv6 hwArmOff = gettimeofdayNow 3 250 :=
  ⟨(c3_arm_guarded_read hwArmOn (by decide)).1 (by decide),
   (c3_arm_guarded_read hwArmOff (by decide)).2 (by decide)⟩

/-- Claim C4: `Now()` is total: for every recognized branch and every
value of the underlying hardware/kernel readings it returns a value in
the 64-bit signed integer range, with no error channel. -/
theorem c4_total (b : Branch) (hw : HwState) :
    -(2 ^ 63) ≤ Now b hw ∧ Now b hw < 2 ^ 63 := by
  cases b with
  | macosx => exact toInt64_range hw.machTime
  | i386 => exact toInt64_range hw.tsc
  | x86_64 => exact toInt64_range _
  | powerpc => exact toInt64_range _
  | sparc => exact toInt64_range hw.sparcTick
  | ia64 => exact toInt64_range hw.ia64Itc
  | msvcAsm => exact toInt64_range hw.tsc
  | msvcIntrin => exact toInt64_range hw.tsc
  | armv6 =>
      cases hb : armCanRead hw with
      | true =>
          rw [now_armv6_eq_true hb]
          have hm : hw.pmccntr % 2 ^ 32 < 2 ^ 32 := by omega
          constructor <;> omega
      | false =>
          rw [now_armv6_eq_false hb]
          exact toInt64_range _
  | armGeneric => exact toInt64_range _
  | mips => exact toInt64_range _

/-- Claim C5: on the 64-bit x86 branch, for every pair of 32-bit
register values `(low, high)` written by `rdtsc`, the branch returns
`(high << 32) | low`, i.e. the 64-bit reinterpretation of
`high * 2^32 + low`; when that combination is below `2^63` the returned
value is exactly `high * 2^32 + low`. -/
theorem c5_x86_64_combine (low high : Nat) (hl : low < 2 ^ 32) (hh : high < 2 ^ 32) :
    rdtsc64Combine low high = toInt64 (high * 2 ^ 32 + low) ∧
    (high * 2 ^ 32 + low < 2 ^ 63 →
      rdtsc64Combine low high = ((high * 2 ^ 32 + low : Nat) : Int)) := by
  have e := rdtsc64Combine_eq low high hl
  rw [Nat.mod_eq_of_lt hh] at e
  exact ⟨e, fun hb => by rw [e, toInt64_of_lt hb]⟩

/-- Witness for C5: registers `low = 3`, `high = 2` combine to
`2 * 2^32 + 3`. -/
theorem c5_witness : rdtsc64Combine 3 2 = ((2 * 2 ^ 32 + 3 : Nat) : Int) :=
  (c5_x86_64_combine 3 2 (by decide) (by decide)).2 (by decide)

/-- Claim C6, counterexample to the claim as stated: a clock reading of
`10^13` seconds makes `tv_sec * 1000000` exceed the 64-bit signed range,
so the fallback branch does not return `s * 1000000 + u` but its 64-bit
reinterpretation, which is negative. -/
theorem c6_counterexample : Now .mips hwTvHuge ≠ (10 ^ 13 * 1000000 + 0 : Int) := by
  decide

/-- Claim C6 (amended): on the generic/portable fallback branch
(MIPS, plain ARM, and the ARM branch when its guard checks fail), for
every monotonic-clock reading of seconds `s` and microseconds `u` with
`s * 1000000 + u < 2^63`, `Now()` returns exactly `s * 1000000 + u`. -/
theorem c6_fallback_exact (hw : HwState)
    (hb : hw.tvSec * 1000000 + hw.tvUsec < 2 ^ 63) :
    Now .mips hw = ((hw.tvSec : Int) * 1000000 + (hw.tvUsec : Int)) ∧
    Now .armGeneric hw = ((hw.tvSec : Int) * 1000000 + (hw.tvUsec : Int)) ∧
    (armCanRead hw = false →
      Now .armv6 hw = ((hw.tvSec : Int) * 1000000 + (hw.tvUsec : Int))) := by
  have e : gettimeofdayNow hw.tvSec hw.tvUsec =
      ((hw.tvSec : Int) * 1000000 + (hw.tvUsec : Int)) := by
    unfold gettimeofdayNow
    rw [toInt64_of_lt hb]
    push_cast
    ring
  refine ⟨e, e, fun hc => ?_⟩
  rw [now_armv6_eq_false hc]
  exact e

/-- Witness for C6: the fallback branch maps the reading 3 s 250 us to
3000250. -/
theorem c6_witness : Now .mips hwTvSmall = ((3 : Int) * 1000000 + (250 : Int)) :=
  (c6_fallback_exact hwTvSmall (by decide)).1

/-- Claim C7: on every recognized branch, a call whose raw readings are
well formed and below `2^63` counter units returns a non-negative
value. -/
theorem c7_nonneg (b : Branch) (hw : HwState)
    (hwf : WellFormed b hw) (hb : Bound63 b hw) : 0 ≤ Now b hw := by
  cases b with
  | macosx =>
      simp only [Bound63] at hb
      simp only [Now]
      rw [toInt64_of_lt hb]
      exact Int.natCast_nonneg _
  | i386 =>
      simp only [Bound63] at hb
      simp only [Now]
      rw [toInt64_of_lt hb]
      exact Int.natCast_nonneg _
  | msvcAsm =>
      simp only [Bound63] at hb
      simp only [Now]
      rw [toInt64_of_lt hb]
      exact Int.natCast_nonneg _
  | msvcIntrin =>
      simp only [Bound63] at hb
      simp only [Now]
      rw [toInt64_of_lt hb]
      exact Int.natCast_nonneg _
  | sparc =>
      simp only [Bound63] at hb
      simp only [Now]
      rw [toInt64_of_lt hb]
      exact Int.natCast_nonneg _
  | ia64 =>
      simp only [Bound63] at hb
      simp only [Now]
      rw [toInt64_of_lt hb]
      exact Int.natCast_nonneg _
  | x86_64 =>
      simp only [WellFormed] at hwf
      simp only [Bound63] at hb
      rw [now_x86_64_eq hwf, toInt64_of_lt hb]
      exact Int.natCast_nonneg _
  | powerpc =>
      simp only [WellFormed] at hwf
      simp only [Bound63] at hb
      have := now_ppc_bounds hwf.1 hwf.2.1 hb
      exact le_trans (Int.natCast_nonneg _) this.1
  | armv6 =>
      cases hc : armCanRead hw with
      | true =>
          rw [now_armv6_eq_true hc]
          positivity
      | false =>
          simp only [Bound63, tvVal] at hb
          rw [now_armv6_eq_false hc]
          unfold gettimeofdayNow
          rw [toInt64_of_lt hb]
          exact Int.natCast_nonneg _
  | armGeneric =>
      simp only [Bound63, tvVal] at hb
      simp only [Now]
      unfold gettimeofdayNow
      rw [toInt64_of_lt hb]
      exact Int.natCast_nonneg _
  | mips =>
      simp only [Bound63, tvVal] at hb
      simp only [Now]
      unfold gettimeofdayNow
      rw [toInt64_of_lt hb]
      exact Int.natCast_nonneg _

/-- Witness for C7: the mach branch at reading 5 returns a non-negative
value. -/
theorem c7_witness : 0 ≤ Now .macosx hwW1 :=
  c7_nonneg .macosx hwW1 (by decide) (by decide)

/-- Claim C8: a configuration defining none of the recognized
architecture/OS feature switches fails to build with the `#error`
message; no branch body (and hence no silent runtime fallback) is
compiled in for it. -/
theorem c8_unknown_config (c : Config) (h : matchesKnown c = false) :
    compileNow c = .error cycleTimerError ∧ ∀ b : Branch, compileNow c ≠ .ok b := by
  unfold matchesKnown at h
  simp only [Bool.or_eq_false_iff] at h
  obtain ⟨⟨⟨⟨⟨⟨⟨⟨⟨⟨h1, h2⟩, h3⟩, h4⟩, h5⟩, h6⟩, h7⟩, h8⟩, h9⟩, h10⟩, h11⟩ := h
  have hsel : selectBranch c = none := by
    simp [selectBranch, h1, h2, h3, h4, h5, h6, h7, h8, h9, h10, h11]
  exact ⟨by simp [compileNow, hsel], fun b => by simp [compileNow, hsel]⟩

/-- Witness for C8: the all-false configuration fails to build with the
`#error` message. -/
theorem c8_witness : compileNow cfgNone = .error cycleTimerError :=
  (c8_unknown_config cfgNone (by decide)).1

/-- Claim C9: on the ARM performance-monitor branch with both guards
passing, the returned value is a non-negative multiple of 64, bounded by
`(2^32 - 1) * 64 < 2^38` (so the multiplication cannot overflow the
64-bit signed result), and it is unchanged when the 32-bit counter wraps
by `2^32`. -/
theorem c9_arm_counter_scale (hw : HwState) (h32 : hw.pmccntr < 2 ^ 32)
    (hg : armCanRead hw = true) :
    0 ≤ Now .armv6 hw ∧ Now .armv6 hw ≤ ((2 ^ 32 - 1) * 64 : Int) ∧
    Now .armv6 hw < 2 ^ 38 ∧ (64 : Int) ∣ Now .armv6 hw ∧
    Now .armv6 (setPmccntr hw (hw.pmccntr + 2 ^ 32)) = Now .armv6 hw := by
  rw [now_armv6_eq_true hg, Nat.mod_eq_of_lt h32]
  have hg2 : armCanRead (setPmccntr hw (hw.pmccntr + 2 ^ 32)) = true := hg
  refine ⟨by positivity, by omega, by omega, ⟨(hw.pmccntr : Int), by ring⟩, ?_⟩
  rw [now_armv6_eq_true hg2]
  simp only [setPmccntr]
  omega

/-- Witness for C9: with `pmccntr = 7` the ARM branch value is divisible
by 64. -/
theorem c9_witness : (64 : Int) ∣ Now .armv6 hwArmOn :=
  (c9_arm_counter_scale hwArmOn (by decide) (by decide)).2.2.2.1

/-- Claim C10, counterexample to the claim as stated: the fallback
mapping is not strictly increasing on all well-formed readings, because
of 64-bit wrap-around: the reading `(10^13, 0)` is lexicographically
above `(0, 0)` yet maps to a negative value; and it is not injective,
because `(18446744073709, 551616)` (whose microsecond value is `2^64`)
maps to the same value as `(0, 0)`. -/
theorem c10_counterexample :
    (0 : Nat) < 1000000 ∧ (551616 : Nat) < 1000000 ∧ (0 : Nat) < 10 ^ 13 ∧
    ¬ gettimeofdayNow 0 0 < gettimeofdayNow (10 ^ 13) 0 ∧
    gettimeofdayNow 18446744073709 551616 = gettimeofdayNow 0 0 := by
  decide

/-- Claim C10 (amended): restricted to well-formed readings
(`u < 10^6`) whose microsecond value stays below `2^63`, the fallback
mapping is strictly increasing for the lexicographic order, and hence
injective. -/
theorem c10_fallback_strict_mono (s1 u1 s2 u2 : Nat)
    (hu1 : u1 < 1000000) (hu2 : u2 < 1000000)
    (hb1 : s1 * 1000000 + u1 < 2 ^ 63) (hb2 : s2 * 1000000 + u2 < 2 ^ 63) :
    (s1 < s2 ∨ (s1 = s2 ∧ u1 < u2) →
      gettimeofdayNow s1 u1 < gettimeofdayNow s2 u2) ∧
    (gettimeofdayNow s1 u1 = gettimeofdayNow s2 u2 → s1 = s2 ∧ u1 = u2) := by
  unfold gettimeofdayNow
  rw [toInt64_of_lt hb1, toInt64_of_lt hb2]
  constructor
  · intro h
    omega
  · intro h
    constructor <;> omega

/-- Witness for C10: the reading 3 s 250 us maps strictly below the
reading 3 s 251 us. -/
theorem c10_witness : gettimeofdayNow 3 250 < gettimeofdayNow 3 251 :=
  (c10_fallback_strict_mono 3 250 3 251 (by decide) (by decide) (by decide)
    (by decide)).1 (Or.inr ⟨rfl, by decide⟩)

end CycleClock
